import Mathlib

/-!
Verification of the language-classification engine of `scripts/wakatime_api.py`
(`process_language_data`).  Durations are modelled as rationals; Python dicts
(which preserve insertion order) are modelled as association lists where
assignment to an existing key updates it in place and assignment to a fresh
key appends at the end.
-/

/-- One raw language entry as returned by the time-tracking service. -/
structure RawLang where
  name : String
  total_seconds : ℚ
deriving DecidableEq, Repr

/-- A working bucket of `language_dict`: display name plus accumulated seconds. -/
structure Bucket where
  name : String
  total_seconds : ℚ
deriving DecidableEq, Repr

/-- One processed output entry. -/
structure ProcessedLang where
  name : String
  total_seconds : ℚ
  percent : ℚ
deriving DecidableEq, Repr

/-- The Python string method lower (ASCII case mapping, as used on the labels). -/
def lowerName (s : String) : String := ⟨s.data.map Char.toLower⟩

/-- The Python string method capitalize: first character upper-cased, rest lower-cased. -/
def capitalize (s : String) : String :=
  match s.data with
  | [] => ⟨[]⟩
  | c :: cs => ⟨c.toUpper :: cs.map Char.toLower⟩

/-- The discard set `MEANINGLESS_LANGUAGES`. -/
def MEANINGLESS_LANGUAGES : List String :=
  ["other", "others", "binary", "textmate", "text", "plaintext",
   "json", "yaml", "yml", "xml", "toml", "ini", "conf", "config",
   "markdown", "md", "txt", "log", "csv", "tsv",
   "git commit message", "git config", "git rebase",
   "tex", "latex", "bibtex", "xaml", "gitignore", "gitignore file", "batchfile", "batch", "class",
   "git", "pickle", "self", "sourcemap", "ssh config", "ssh_config",
   "diff", "prolog", "spi", "postscript", "asciidoc"]

/-- `CMAKE_LANGUAGES`: build tooling folded into C++. -/
def CMAKE_LANGUAGES : List String :=
  ["cmake", "cmakelist", "cmakelists", "makefile", "make", "ninja",
   "microsoft visual studio solution", "msvs"]

/-- `JUPYTER_LANGUAGES`: notebook labels folded into Python. -/
def JUPYTER_LANGUAGES : List String :=
  ["jupyter", "jupyter notebook", "ipynb", "pythonstub", "python stub"]

/-- `JAVA_RELATED`: auxiliary Java files folded into Java. -/
def JAVA_RELATED : List String :=
  ["java properties", "properties", "mixin_json_configuration",
   "mixin json configuration", "idea_module", "idea module", "access transformers"]

/-- `GRADLE_TARGET_LANGUAGES`: languages receiving the Gradle split. -/
def GRADLE_TARGET_LANGUAGES : List String := ["java", "kotlin", "groovy"]

/-- `FRONTEND_LANGUAGES`: aggregated into "Frontend Langs". -/
def FRONTEND_LANGUAGES : List String :=
  ["javascript", "typescript", "html", "css", "scss", "sass", "less", "jsx", "tsx",
   "vue", "vue.js", "svelte", "tsconfig", "tsconfig.json"]

/-- `SHELL_LANGUAGES`: aggregated into "Shell Langs". -/
def SHELL_LANGUAGES : List String :=
  ["bash", "shell", "shellscript", "shell script", "sh", "zsh", "nix",
   "actionscript", "powershell", "pwsh", "docker", "dockerfile"]

/-- `SHADER_LANGUAGES`: aggregated into "Shader Langs". -/
def SHADER_LANGUAGES : List String := ["glsl", "hlsl", "shaderlab", "f#"]

/-- The inline two-label set of the orchestrator rule (gradle, groovy gradle). -/
def GRADLE_LABELS : List String := ["gradle", "groovy gradle"]

/-- The inline Objective-C spelling-variant set. -/
def OBJC_LABELS : List String := ["objective-c", "objectivec", "objective c", "objc"]

/-- The inline C/C++ joint-label spelling set. -/
def CCPP_LABELS : List String := ["c/c++", "c/c", "c++/c"]

/-- `language_dict`, an insertion-ordered map from lowercase key to bucket. -/
abbrev Dict : Type := List (String × Bucket)

/-- Lookup in `language_dict` (`language_dict[k]` / `k in language_dict`). -/
def lookupD : Dict → String → Option Bucket
  | [], _ => none
  | p :: rest, k => if p.1 = k then some p.2 else lookupD rest k

/-- The source idiom that creates a zero-seconds bucket named `n` at key `k`
when the key is absent and then adds `s` to the seconds of the bucket at `k`
(fresh keys append at the end, dict order). -/
def addDefault : Dict → String → String → ℚ → Dict
  | [], k, n, s => [(k, ⟨n, s⟩)]
  | p :: rest, k, n, s =>
    if p.1 = k then (p.1, ⟨p.2.name, p.2.total_seconds + s⟩) :: rest
    else p :: addDefault rest k n s

/-- Plain dict assignment `d[k] = v`: overwrites in place, or appends when absent. -/
def dictSet : Dict → String → Bucket → Dict
  | [], k, v => [(k, v)]
  | p :: rest, k, v => if p.1 = k then (p.1, v) :: rest else p :: dictSet rest k v

/-- An insertion-ordered map from string to rational (for the two Gradle maps). -/
abbrev QDict : Type := List (String × ℚ)

/-- Lookup in a `QDict`. -/
def lookupQ : QDict → String → Option ℚ
  | [], _ => none
  | p :: rest, k => if p.1 = k then some p.2 else lookupQ rest k

/-- Dict assignment `d[k] = v` on a `QDict`. -/
def assocSet : QDict → String → ℚ → QDict
  | [], k, v => [(k, v)]
  | p :: rest, k, v => if p.1 = k then (p.1, v) :: rest else p :: assocSet rest k v

/-- Pass 1: `gradle_target_seconds`, the durations of Java/Kotlin/Groovy entries,
recorded by dict assignment (a repeated label overwrites its earlier value). -/
def gradleTargetSeconds (raw : List RawLang) : QDict :=
  raw.foldl
    (fun d lang =>
      if GRADLE_TARGET_LANGUAGES.contains (lowerName lang.name) then
        assocSet d (lowerName lang.name) lang.total_seconds
      else d)
    []

/-- Sum of the values of a `QDict`. -/
def qdictSum (d : QDict) : ℚ := (d.map (fun p => p.2)).sum

/-- The map `gradle_distribution`: each target language gets its share of the
orchestrator time, or the fallback map sending java to 1.0 when no target
language was observed. -/
def gradleDistribution (raw : List RawLang) : QDict :=
  let gts := gradleTargetSeconds raw
  let total := qdictSum gts
  if 0 < total then gts.map (fun p => (p.1, p.2 / total))
  else [("java", 1)]

/-- The mutable state of pass 2: the working dict plus the seven accumulators. -/
structure Pass2State where
  dict : Dict
  cmake_seconds : ℚ
  gradle_seconds : ℚ
  frontend_seconds : ℚ
  jupyter_seconds : ℚ
  java_related_seconds : ℚ
  shell_seconds : ℚ
  shader_seconds : ℚ

/-- All-zero initial state of pass 2. -/
def initState : Pass2State := ⟨[], 0, 0, 0, 0, 0, 0, 0⟩

/-- One iteration of pass 2: the sequential conditional chain of the source,
first match wins. -/
def pass2Step (st : Pass2State) (lang : RawLang) : Pass2State :=
  let nl := lowerName lang.name
  let s := lang.total_seconds
  if MEANINGLESS_LANGUAGES.contains nl then st
  else if CMAKE_LANGUAGES.contains nl then { st with cmake_seconds := st.cmake_seconds + s }
  else if JUPYTER_LANGUAGES.contains nl then { st with jupyter_seconds := st.jupyter_seconds + s }
  else if JAVA_RELATED.contains nl then
    { st with java_related_seconds := st.java_related_seconds + s }
  else if GRADLE_LABELS.contains nl then { st with gradle_seconds := st.gradle_seconds + s }
  else if FRONTEND_LANGUAGES.contains nl then
    { st with frontend_seconds := st.frontend_seconds + s }
  else if SHELL_LANGUAGES.contains nl then { st with shell_seconds := st.shell_seconds + s }
  else if SHADER_LANGUAGES.contains nl then { st with shader_seconds := st.shader_seconds + s }
  else if OBJC_LABELS.contains nl then
    { st with dict := addDefault st.dict "objective-c" "Objective-C" s }
  else if CCPP_LABELS.contains nl then
    { st with dict := addDefault st.dict "c" "C" s }
  else { st with dict := addDefault st.dict nl lang.name s }

/-- Pass 2 over the whole raw list. -/
def pass2 (raw : List RawLang) : Pass2State := raw.foldl pass2Step initState

/-- One `if acc > 0:` block of the CMake/Jupyter/Java kind: add the accumulator
to the bucket at `k` (creating it with display name `n` first when absent). -/
def foldAcc (d : Dict) (k n : String) (a : ℚ) : Dict :=
  if 0 < a then addDefault d k n a else d

/-- One `if acc > 0:` block of the frontend/shell/shader kind: plain assignment
of a brand-new synthetic bucket at `k`, overwriting whatever was there. -/
def storeAcc (d : Dict) (k n : String) (a : ℚ) : Dict :=
  if 0 < a then dictSet d k ⟨n, a⟩ else d

/-- Finalization: fold each positive accumulator into the dict, in source
order.  CMake, Jupyter and Java-auxiliary seconds are added to (possibly
fresh) C++/Python/Java buckets; frontend/shell/shader seconds are stored by
plain assignment. -/
def finalizeDict (st : Pass2State) : Dict :=
  storeAcc (storeAcc (storeAcc
    (foldAcc (foldAcc (foldAcc st.dict
      "c++" "C++" st.cmake_seconds)
      "python" "Python" st.jupyter_seconds)
      "java" "Java" st.java_related_seconds)
    "frontend" "Frontend Langs" st.frontend_seconds)
    "shell" "Shell Langs" st.shell_seconds)
    "shader" "Shader Langs" st.shader_seconds

/-- Step 3: distribute the orchestrator seconds across the Gradle targets,
creating a target bucket (capitalized display name) when absent. -/
def applyGradle (d : Dict) (dist : QDict) (g : ℚ) : Dict :=
  if 0 < g then
    dist.foldl (fun d p => addDefault d p.1 (capitalize p.1) (g * p.2)) d
  else d

/-- The fully built `language_dict` just before percentages are computed. -/
def finalDict (raw : List RawLang) : Dict :=
  applyGradle (finalizeDict (pass2 raw)) (gradleDistribution raw) (pass2 raw).gradle_seconds

/-- Sum of the bucket durations of a dict (the recomputed `total_seconds`). -/
def dictSum (d : Dict) : ℚ := (d.map (fun p => p.2.total_seconds)).sum

/-- The retained total the percentages are computed against. -/
def retainedTotal (raw : List RawLang) : ℚ := dictSum (finalDict raw)

/-- Step 4: turn the dict into the output list with percentages. -/
def toPercentList (d : Dict) : List ProcessedLang :=
  let total := dictSum d
  d.map (fun p =>
    ⟨p.2.name, p.2.total_seconds,
     if 0 < total then p.2.total_seconds / total * 100 else 0⟩)

/-- The full engine `process_language_data`: classify, finalize, redistribute,
recompute percentages, and sort by duration descending (stable). -/
def process_language_data (raw : List RawLang) : List ProcessedLang :=
  List.insertionSort (fun a b => b.total_seconds ≤ a.total_seconds)
    (toPercentList (finalDict raw))

/-- Sum of the durations of a raw input list. -/
def sumSecs (l : List RawLang) : ℚ := (l.map (fun e => e.total_seconds)).sum

/-- Sum of the durations of an output list. -/
def outSum (l : List ProcessedLang) : ℚ := (l.map (fun e => e.total_seconds)).sum

/-- Sum of the percent fields of an output list. -/
def percentSum (l : List ProcessedLang) : ℚ := (l.map (fun e => e.percent)).sum

/-- A lowercased label takes the default branch of pass 2 (matches no rule set). -/
def defaultLabel (nl : String) : Prop :=
  MEANINGLESS_LANGUAGES.contains nl = false ∧ CMAKE_LANGUAGES.contains nl = false ∧
  JUPYTER_LANGUAGES.contains nl = false ∧ JAVA_RELATED.contains nl = false ∧
  GRADLE_LABELS.contains nl = false ∧ FRONTEND_LANGUAGES.contains nl = false ∧
  SHELL_LANGUAGES.contains nl = false ∧ SHADER_LANGUAGES.contains nl = false ∧
  OBJC_LABELS.contains nl = false ∧ CCPP_LABELS.contains nl = false

instance : DecidablePred defaultLabel := fun nl => by
  unfold defaultLabel; infer_instance

/-- A key that only default-branch entries can write: a default label that is
moreover not the canonical C key (which the C/C++ rule also writes). -/
def defaultKey (k : String) : Prop := defaultLabel k ∧ k ≠ "c"

instance : DecidablePred defaultKey := fun k => by
  unfold defaultKey; infer_instance

/-- Effect on one dict entry of a run of default-branch insertions: a fresh
bucket takes the casing of the first entry; an existing bucket keeps its name and
accumulates the seconds. -/
def combineBucket (b : Option Bucket) (l : List RawLang) : Option Bucket :=
  match b, l with
  | none, [] => none
  | none, e :: es => some ⟨e.name, sumSecs (e :: es)⟩
  | some b, l => some ⟨b.name, b.total_seconds + sumSecs l⟩

/-- Total seconds held anywhere in a pass-2 state: the dict plus all accumulators. -/
def tally (st : Pass2State) : ℚ :=
  dictSum st.dict + st.cmake_seconds + st.gradle_seconds + st.frontend_seconds +
    st.jupyter_seconds + st.java_related_seconds + st.shell_seconds + st.shader_seconds

/-! ### Lemmas about the dictionary operations -/

theorem lookupD_addDefault_self (d : Dict) (k n : String) (s : ℚ) :
    lookupD (addDefault d k n s) k =
      some ((lookupD d k).elim ⟨n, s⟩ (fun b => ⟨b.name, b.total_seconds + s⟩)) := by
  induction d with
  | nil => simp [addDefault, lookupD]
  | cons p rest ih =>
    by_cases h : p.1 = k
    · simp [addDefault, lookupD, h]
    · simp [addDefault, lookupD, h, ih]

theorem lookupD_addDefault_ne (d : Dict) (k' k n : String) (s : ℚ) (h : k' ≠ k) :
    lookupD (addDefault d k' n s) k = lookupD d k := by
  induction d with
  | nil => simp [addDefault, lookupD, h]
  | cons p rest ih =>
    by_cases hp : p.1 = k'
    · have : p.1 ≠ k := hp ▸ h
      simp [addDefault, lookupD, hp, this, h, Ne.symm h]
    · by_cases hk : p.1 = k
      · simp [addDefault, lookupD, hp, hk, h, Ne.symm h]
      · simp [addDefault, lookupD, hp, hk, ih, h, Ne.symm h]

theorem dictSum_addDefault (d : Dict) (k n : String) (s : ℚ) :
    dictSum (addDefault d k n s) = dictSum d + s := by
  induction d with
  | nil => simp [addDefault, dictSum]
  | cons p rest ih =>
    by_cases h : p.1 = k
    · simp only [addDefault, if_pos h, dictSum, List.map_cons, List.sum_cons]
      ring
    · simp only [addDefault, if_neg h, dictSum, List.map_cons, List.sum_cons] at *
      rw [ih]; ring

theorem lookupD_dictSet_self (d : Dict) (k : String) (v : Bucket) :
    lookupD (dictSet d k v) k = some v := by
  induction d with
  | nil => simp [dictSet, lookupD]
  | cons p rest ih =>
    by_cases h : p.1 = k
    · simp [dictSet, lookupD, h]
    · simp [dictSet, lookupD, h, ih]

theorem lookupD_dictSet_ne (d : Dict) (k' k : String) (v : Bucket) (h : k' ≠ k) :
    lookupD (dictSet d k' v) k = lookupD d k := by
  induction d with
  | nil => simp [dictSet, lookupD, h]
  | cons p rest ih =>
    by_cases hp : p.1 = k'
    · have : p.1 ≠ k := hp ▸ h
      simp [dictSet, lookupD, hp, this, h, Ne.symm h]
    · by_cases hk : p.1 = k
      · simp [dictSet, lookupD, hp, hk, h, Ne.symm h]
      · simp [dictSet, lookupD, hp, hk, ih, h, Ne.symm h]

theorem dictSet_of_absent (d : Dict) (k : String) (v : Bucket) (h : lookupD d k = none) :
    dictSet d k v = d ++ [(k, v)] := by
  induction d with
  | nil => simp [dictSet]
  | cons p rest ih =>
    by_cases hp : p.1 = k
    · simp [lookupD, hp] at h
    · simp only [lookupD, if_neg hp] at h
      simp [dictSet, hp, ih h]

theorem dictSum_append_single (d : Dict) (k : String) (v : Bucket) :
    dictSum (d ++ [(k, v)]) = dictSum d + v.total_seconds := by
  simp [dictSum]

theorem lookupQ_assocSet_self (d : QDict) (k : String) (v : ℚ) :
    lookupQ (assocSet d k v) k = some v := by
  induction d with
  | nil => simp [assocSet, lookupQ]
  | cons p rest ih =>
    by_cases h : p.1 = k
    · simp [assocSet, lookupQ, h]
    · simp [assocSet, lookupQ, h, ih]

theorem lookupQ_assocSet_ne (d : QDict) (k' k : String) (v : ℚ) (h : k' ≠ k) :
    lookupQ (assocSet d k' v) k = lookupQ d k := by
  induction d with
  | nil => simp [assocSet, lookupQ, h]
  | cons p rest ih =>
    by_cases hp : p.1 = k'
    · have : p.1 ≠ k := hp ▸ h
      simp [assocSet, lookupQ, hp, this, h, Ne.symm h]
    · by_cases hk : p.1 = k
      · simp [assocSet, lookupQ, hp, hk, h, Ne.symm h]
      · simp [assocSet, lookupQ, hp, hk, ih, h, Ne.symm h]

/-! ### Lemmas about pass 2 -/

theorem pass2Step_cases (st : Pass2State) (e : RawLang) :
    (MEANINGLESS_LANGUAGES.contains (lowerName e.name) = true ∧ pass2Step st e = st) ∨
    (CMAKE_LANGUAGES.contains (lowerName e.name) = true ∧
      pass2Step st e = { st with cmake_seconds := st.cmake_seconds + e.total_seconds }) ∨
    (JUPYTER_LANGUAGES.contains (lowerName e.name) = true ∧
      pass2Step st e = { st with jupyter_seconds := st.jupyter_seconds + e.total_seconds }) ∨
    (JAVA_RELATED.contains (lowerName e.name) = true ∧
      pass2Step st e =
        { st with java_related_seconds := st.java_related_seconds + e.total_seconds }) ∨
    (GRADLE_LABELS.contains (lowerName e.name) = true ∧
      pass2Step st e = { st with gradle_seconds := st.gradle_seconds + e.total_seconds }) ∨
    (FRONTEND_LANGUAGES.contains (lowerName e.name) = true ∧
      pass2Step st e = { st with frontend_seconds := st.frontend_seconds + e.total_seconds }) ∨
    (SHELL_LANGUAGES.contains (lowerName e.name) = true ∧
      pass2Step st e = { st with shell_seconds := st.shell_seconds + e.total_seconds }) ∨
    (SHADER_LANGUAGES.contains (lowerName e.name) = true ∧
      pass2Step st e = { st with shader_seconds := st.shader_seconds + e.total_seconds }) ∨
    (OBJC_LABELS.contains (lowerName e.name) = true ∧
      pass2Step st e =
        { st with dict := addDefault st.dict "objective-c" "Objective-C" e.total_seconds }) ∨
    (CCPP_LABELS.contains (lowerName e.name) = true ∧
      pass2Step st e = { st with dict := addDefault st.dict "c" "C" e.total_seconds }) ∨
    (defaultLabel (lowerName e.name) ∧
      pass2Step st e =
        { st with dict := addDefault st.dict (lowerName e.name) e.name e.total_seconds }) := by
  simp only [pass2Step]
  by_cases h1 : MEANINGLESS_LANGUAGES.contains (lowerName e.name) = true
  · rw [if_pos h1]; exact Or.inl ⟨h1, rfl⟩
  rw [if_neg h1]
  by_cases h2 : CMAKE_LANGUAGES.contains (lowerName e.name) = true
  · rw [if_pos h2]; exact Or.inr (Or.inl ⟨h2, rfl⟩)
  rw [if_neg h2]
  by_cases h3 : JUPYTER_LANGUAGES.contains (lowerName e.name) = true
  · rw [if_pos h3]; exact Or.inr (Or.inr (Or.inl ⟨h3, rfl⟩))
  rw [if_neg h3]
  by_cases h4 : JAVA_RELATED.contains (lowerName e.name) = true
  · rw [if_pos h4]; exact Or.inr (Or.inr (Or.inr (Or.inl ⟨h4, rfl⟩)))
  rw [if_neg h4]
  by_cases h5 : GRADLE_LABELS.contains (lowerName e.name) = true
  · rw [if_pos h5]; exact Or.inr (Or.inr (Or.inr (Or.inr (Or.inl ⟨h5, rfl⟩))))
  rw [if_neg h5]
  by_cases h6 : FRONTEND_LANGUAGES.contains (lowerName e.name) = true
  · rw [if_pos h6]; exact Or.inr (Or.inr (Or.inr (Or.inr (Or.inr (Or.inl ⟨h6, rfl⟩)))))
  rw [if_neg h6]
  by_cases h7 : SHELL_LANGUAGES.contains (lowerName e.name) = true
  · rw [if_pos h7]
    exact Or.inr (Or.inr (Or.inr (Or.inr (Or.inr (Or.inr (Or.inl ⟨h7, rfl⟩))))))
  rw [if_neg h7]
  by_cases h8 : SHADER_LANGUAGES.contains (lowerName e.name) = true
  · rw [if_pos h8]
    exact Or.inr (Or.inr (Or.inr (Or.inr (Or.inr (Or.inr (Or.inr (Or.inl ⟨h8, rfl⟩)))))))
  rw [if_neg h8]
  by_cases h9 : OBJC_LABELS.contains (lowerName e.name) = true
  · rw [if_pos h9]
    exact Or.inr (Or.inr (Or.inr (Or.inr (Or.inr (Or.inr (Or.inr (Or.inr
      (Or.inl ⟨h9, rfl⟩))))))))
  rw [if_neg h9]
  by_cases h10 : CCPP_LABELS.contains (lowerName e.name) = true
  · rw [if_pos h10]
    exact Or.inr (Or.inr (Or.inr (Or.inr (Or.inr (Or.inr (Or.inr (Or.inr (Or.inr
      (Or.inl ⟨h10, rfl⟩)))))))))
  rw [if_neg h10]
  refine Or.inr (Or.inr (Or.inr (Or.inr (Or.inr (Or.inr (Or.inr (Or.inr (Or.inr
    (Or.inr ⟨⟨?_, ?_, ?_, ?_, ?_, ?_, ?_, ?_, ?_, ?_⟩, rfl⟩)))))))))
  · simpa using h1
  · simpa using h2
  · simpa using h3
  · simpa using h4
  · simpa using h5
  · simpa using h6
  · simpa using h7
  · simpa using h8
  · simpa using h9
  · simpa using h10

theorem tally_pass2Step (st : Pass2State) (e : RawLang)
    (h : MEANINGLESS_LANGUAGES.contains (lowerName e.name) = false) :
    tally (pass2Step st e) = tally st + e.total_seconds := by
  rcases pass2Step_cases st e with ⟨hc, hr⟩ | ⟨hc, hr⟩ | ⟨hc, hr⟩ | ⟨hc, hr⟩ | ⟨hc, hr⟩ |
    ⟨hc, hr⟩ | ⟨hc, hr⟩ | ⟨hc, hr⟩ | ⟨hc, hr⟩ | ⟨hc, hr⟩ | ⟨hc, hr⟩
  · rw [h] at hc; cases hc
  all_goals rw [hr]
  all_goals simp only [tally, dictSum_addDefault]
  all_goals ring

theorem tally_pass2_go (es : List RawLang) (st : Pass2State)
    (h : ∀ e ∈ es, MEANINGLESS_LANGUAGES.contains (lowerName e.name) = false) :
    tally (es.foldl pass2Step st) = tally st + sumSecs es := by
  induction es generalizing st with
  | nil => simp [sumSecs]
  | cons e es ih =>
    rw [List.foldl_cons, ih _ (fun x hx => h x (List.mem_cons_of_mem _ hx)),
      tally_pass2Step st e (h e (List.mem_cons_self _ _))]
    simp [sumSecs]
    ring

theorem pass2_accums_nonneg (es : List RawLang) (st : Pass2State)
    (h : ∀ e ∈ es, 0 ≤ e.total_seconds)
    (h0 : 0 ≤ st.cmake_seconds ∧ 0 ≤ st.gradle_seconds ∧ 0 ≤ st.frontend_seconds ∧
      0 ≤ st.jupyter_seconds ∧ 0 ≤ st.java_related_seconds ∧ 0 ≤ st.shell_seconds ∧
      0 ≤ st.shader_seconds) :
    0 ≤ (es.foldl pass2Step st).cmake_seconds ∧ 0 ≤ (es.foldl pass2Step st).gradle_seconds ∧
    0 ≤ (es.foldl pass2Step st).frontend_seconds ∧ 0 ≤ (es.foldl pass2Step st).jupyter_seconds ∧
    0 ≤ (es.foldl pass2Step st).java_related_seconds ∧ 0 ≤ (es.foldl pass2Step st).shell_seconds ∧
    0 ≤ (es.foldl pass2Step st).shader_seconds := by
  induction es generalizing st with
  | nil => simpa using h0
  | cons e es ih =>
    rw [List.foldl_cons]
    have hs : 0 ≤ e.total_seconds := h e (List.mem_cons_self _ _)
    obtain ⟨c1, c2, c3, c4, c5, c6, c7⟩ := h0
    refine ih _ (fun x hx => h x (List.mem_cons_of_mem _ hx)) ?_
    rcases pass2Step_cases st e with ⟨hc, hr⟩ | ⟨hc, hr⟩ | ⟨hc, hr⟩ | ⟨hc, hr⟩ | ⟨hc, hr⟩ |
      ⟨hc, hr⟩ | ⟨hc, hr⟩ | ⟨hc, hr⟩ | ⟨hc, hr⟩ | ⟨hc, hr⟩ | ⟨hc, hr⟩
    · rw [hr]; exact ⟨c1, c2, c3, c4, c5, c6, c7⟩
    · rw [hr]; exact ⟨add_nonneg c1 hs, c2, c3, c4, c5, c6, c7⟩
    · rw [hr]; exact ⟨c1, c2, c3, add_nonneg c4 hs, c5, c6, c7⟩
    · rw [hr]; exact ⟨c1, c2, c3, c4, add_nonneg c5 hs, c6, c7⟩
    · rw [hr]; exact ⟨c1, add_nonneg c2 hs, c3, c4, c5, c6, c7⟩
    · rw [hr]; exact ⟨c1, c2, add_nonneg c3 hs, c4, c5, c6, c7⟩
    · rw [hr]; exact ⟨c1, c2, c3, c4, c5, add_nonneg c6 hs, c7⟩
    · rw [hr]; exact ⟨c1, c2, c3, c4, c5, c6, add_nonneg c7 hs⟩
    · rw [hr]; exact ⟨c1, c2, c3, c4, c5, c6, c7⟩
    · rw [hr]; exact ⟨c1, c2, c3, c4, c5, c6, c7⟩
    · rw [hr]; exact ⟨c1, c2, c3, c4, c5, c6, c7⟩

theorem lookupD_pass2_go (k : String) (hk1 : k ≠ "objective-c") (hk2 : k ≠ "c")
    (es : List RawLang) (st : Pass2State) :
    lookupD (es.foldl pass2Step st).dict k =
      combineBucket (lookupD st.dict k)
        (es.filter (fun e => lowerName e.name == k && decide (defaultLabel k))) := by
  induction es generalizing st with
  | nil =>
    cases hb : lookupD st.dict k <;> simp [combineBucket, sumSecs, hb]
  | cons e es ih =>
    rw [List.foldl_cons, List.filter_cons]
    rcases pass2Step_cases st e with ⟨hc, hr⟩ | ⟨hc, hr⟩ | ⟨hc, hr⟩ | ⟨hc, hr⟩ | ⟨hc, hr⟩ |
      ⟨hc, hr⟩ | ⟨hc, hr⟩ | ⟨hc, hr⟩ | ⟨hc, hr⟩ | ⟨hc, hr⟩ | ⟨hc, hr⟩
    · -- discard branch
      have hcond : (lowerName e.name == k && decide (defaultLabel k)) = false := by
        by_cases hd : defaultLabel k
        · have hnk : lowerName e.name ≠ k := by
            intro hnk; rw [hnk, hd.1] at hc; cases hc
          simp [hnk]
        · simp [hd]
      rw [hcond]
      simp only [Bool.false_eq_true, if_false]
      rw [hr]
      exact ih st
    all_goals rw [hr]
    -- the seven accumulator branches and the two canonicalization branches
    · have hcond : (lowerName e.name == k && decide (defaultLabel k)) = false := by
        by_cases hd : defaultLabel k
        · have hnk : lowerName e.name ≠ k := by
            intro hnk; rw [hnk, hd.2.1] at hc; cases hc
          simp [hnk]
        · simp [hd]
      rw [hcond]
      simp only [Bool.false_eq_true, if_false]
      exact ih _
    · have hcond : (lowerName e.name == k && decide (defaultLabel k)) = false := by
        by_cases hd : defaultLabel k
        · have hnk : lowerName e.name ≠ k := by
            intro hnk; rw [hnk, hd.2.2.1] at hc; cases hc
          simp [hnk]
        · simp [hd]
      rw [hcond]
      simp only [Bool.false_eq_true, if_false]
      exact ih _
    · have hcond : (lowerName e.name == k && decide (defaultLabel k)) = false := by
        by_cases hd : defaultLabel k
        · have hnk : lowerName e.name ≠ k := by
            intro hnk; rw [hnk, hd.2.2.2.1] at hc; cases hc
          simp [hnk]
        · simp [hd]
      rw [hcond]
      simp only [Bool.false_eq_true, if_false]
      exact ih _
    · have hcond : (lowerName e.name == k && decide (defaultLabel k)) = false := by
        by_cases hd : defaultLabel k
        · have hnk : lowerName e.name ≠ k := by
            intro hnk; rw [hnk, hd.2.2.2.2.1] at hc; cases hc
          simp [hnk]
        · simp [hd]
      rw [hcond]
      simp only [Bool.false_eq_true, if_false]
      exact ih _
    · have hcond : (lowerName e.name == k && decide (defaultLabel k)) = false := by
        by_cases hd : defaultLabel k
        · have hnk : lowerName e.name ≠ k := by
            intro hnk; rw [hnk, hd.2.2.2.2.2.1] at hc; cases hc
          simp [hnk]
        · simp [hd]
      rw [hcond]
      simp only [Bool.false_eq_true, if_false]
      exact ih _
    · have hcond : (lowerName e.name == k && decide (defaultLabel k)) = false := by
        by_cases hd : defaultLabel k
        · have hnk : lowerName e.name ≠ k := by
            intro hnk; rw [hnk, hd.2.2.2.2.2.2.1] at hc; cases hc
          simp [hnk]
        · simp [hd]
      rw [hcond]
      simp only [Bool.false_eq_true, if_false]
      exact ih _
    · have hcond : (lowerName e.name == k && decide (defaultLabel k)) = false := by
        by_cases hd : defaultLabel k
        · have hnk : lowerName e.name ≠ k := by
            intro hnk; rw [hnk, hd.2.2.2.2.2.2.2.1] at hc; cases hc
          simp [hnk]
        · simp [hd]
      rw [hcond]
      simp only [Bool.false_eq_true, if_false]
      exact ih _
    · have hcond : (lowerName e.name == k && decide (defaultLabel k)) = false := by
        by_cases hd : defaultLabel k
        · have hnk : lowerName e.name ≠ k := by
            intro hnk; rw [hnk, hd.2.2.2.2.2.2.2.2.1] at hc; cases hc
          simp [hnk]
        · simp [hd]
      rw [hcond]
      simp only [Bool.false_eq_true, if_false]
      rw [ih]
      congr 1
      exact lookupD_addDefault_ne _ _ _ _ _ (Ne.symm hk1)
    · have hcond : (lowerName e.name == k && decide (defaultLabel k)) = false := by
        by_cases hd : defaultLabel k
        · have hnk : lowerName e.name ≠ k := by
            intro hnk; rw [hnk, hd.2.2.2.2.2.2.2.2.2] at hc; cases hc
          simp [hnk]
        · simp [hd]
      rw [hcond]
      simp only [Bool.false_eq_true, if_false]
      rw [ih]
      congr 1
      exact lookupD_addDefault_ne _ _ _ _ _ (Ne.symm hk2)
    · -- default branch
      by_cases hnk : lowerName e.name = k
      · have hdk : defaultLabel k := hnk ▸ hc
        have hcond : (lowerName e.name == k && decide (defaultLabel k)) = true := by
          simp [hnk, hdk]
        rw [hcond]
        simp only [if_true]
        rw [hnk] at hr ⊢
        rw [ih, lookupD_addDefault_self]
        cases hb : lookupD st.dict k with
        | none => simp [combineBucket, sumSecs, hb]
        | some b =>
          simp [combineBucket, sumSecs, hb]
          ring
      · have hcond : (lowerName e.name == k && decide (defaultLabel k)) = false := by
          simp [hnk]
        rw [hcond]
        simp only [Bool.false_eq_true, if_false]
        rw [ih]
        congr 1
        exact lookupD_addDefault_ne _ _ _ _ _ hnk

/-! ### Lemmas about finalization -/

theorem dictSum_foldAcc (d : Dict) (k n : String) (a : ℚ) (h : 0 ≤ a) :
    dictSum (foldAcc d k n a) = dictSum d + a := by
  unfold foldAcc
  split_ifs with hpos
  · exact dictSum_addDefault d k n a
  · have : a = 0 := le_antisymm (not_lt.mp hpos) h
    rw [this, add_zero]

theorem dictSum_storeAcc (d : Dict) (k n : String) (a : ℚ) (h : 0 ≤ a)
    (habs : lookupD d k = none) :
    dictSum (storeAcc d k n a) = dictSum d + a := by
  unfold storeAcc
  split_ifs with hpos
  · rw [dictSet_of_absent d k _ habs, dictSum_append_single]
  · have : a = 0 := le_antisymm (not_lt.mp hpos) h
    rw [this, add_zero]

theorem lookupD_foldAcc_ne (d : Dict) (k' n : String) (a : ℚ) (k : String) (h : k' ≠ k) :
    lookupD (foldAcc d k' n a) k = lookupD d k := by
  unfold foldAcc
  split_ifs with hpos
  · exact lookupD_addDefault_ne d k' k n a h
  · rfl

theorem lookupD_storeAcc_ne (d : Dict) (k' n : String) (a : ℚ) (k : String) (h : k' ≠ k) :
    lookupD (storeAcc d k' n a) k = lookupD d k := by
  unfold storeAcc
  split_ifs with hpos
  · exact lookupD_dictSet_ne d k' k _ h
  · rfl

theorem lookupD_storeAcc_self (d : Dict) (k n : String) (a : ℚ) (h : 0 < a) :
    lookupD (storeAcc d k n a) k = some ⟨n, a⟩ := by
  unfold storeAcc
  rw [if_pos h]
  exact lookupD_dictSet_self d k _

/-! ### Lemmas about pass 1 and the Gradle distribution -/

theorem lookupQ_gradleTargetSeconds_go (l : String)
    (hl : GRADLE_TARGET_LANGUAGES.contains l = true) (es : List RawLang) (d : QDict) :
    lookupQ (es.foldl
        (fun d lang =>
          if GRADLE_TARGET_LANGUAGES.contains (lowerName lang.name) then
            assocSet d (lowerName lang.name) lang.total_seconds
          else d) d) l =
      ((es.filter (fun e => lowerName e.name == l)).getLast?).elim
        (lookupQ d l) (fun e => some e.total_seconds) := by
  induction es generalizing d with
  | nil => simp
  | cons e es ih =>
    rw [List.foldl_cons, List.filter_cons]
    by_cases he : lowerName e.name = l
    · have hcond : (lowerName e.name == l) = true := by simp [he]
      rw [hcond]
      simp only [if_true]
      have hstep : GRADLE_TARGET_LANGUAGES.contains (lowerName e.name) = true := he ▸ hl
      rw [hstep]
      simp only [if_true]
      rw [ih, he]
      cases hgl : (es.filter (fun x => lowerName x.name == l)).getLast? with
      | none =>
        have : es.filter (fun x => lowerName x.name == l) = [] := by
          cases hf : es.filter (fun x => lowerName x.name == l) with
          | nil => rfl
          | cons y ys => rw [hf] at hgl; simp [List.getLast?_concat, List.getLast?] at hgl
        simp [this, Option.elim, lookupQ_assocSet_self]
      | some x =>
        cases hf : es.filter (fun y => lowerName y.name == l) with
        | nil => rw [hf] at hgl; cases hgl
        | cons y ys =>
          rw [hf] at hgl
          simp only [Option.elim]
          rw [List.getLast?_cons_cons, hgl]
    · have hcond : (lowerName e.name == l) = false := by simp [he]
      rw [hcond]
      simp only [Bool.false_eq_true, if_false]
      by_cases hg : GRADLE_TARGET_LANGUAGES.contains (lowerName e.name) = true
      · rw [hg]
        simp only [if_true]
        rw [ih]
        cases hgl : (es.filter (fun x => lowerName x.name == l)).getLast? with
        | none =>
          simp only [Option.elim]
          rw [lookupQ_assocSet_ne _ _ _ _ he]
        | some x => simp only [Option.elim]
      · have : GRADLE_TARGET_LANGUAGES.contains (lowerName e.name) = false := by
          simpa using hg
        rw [this]
        simp only [Bool.false_eq_true, if_false]
        exact ih d

theorem mem_assocSet (d : QDict) (k : String) (v : ℚ) (q : String × ℚ)
    (hq : q ∈ assocSet d k v) : q.1 = k ∨ q ∈ d := by
  induction d with
  | nil => simp [assocSet] at hq; rw [hq]; exact Or.inl rfl
  | cons p rest ih =>
    by_cases h : p.1 = k
    · rw [assocSet, if_pos h] at hq
      rcases List.mem_cons.mp hq with h1 | h1
      · rw [h1]; exact Or.inl h
      · exact Or.inr (List.mem_cons_of_mem _ h1)
    · rw [assocSet, if_neg h] at hq
      rcases List.mem_cons.mp hq with h1 | h1
      · exact Or.inr (h1 ▸ List.mem_cons_self _ _)
      · rcases ih h1 with h2 | h2
        · exact Or.inl h2
        · exact Or.inr (List.mem_cons_of_mem _ h2)

theorem gradleTargetSeconds_keys (raw : List RawLang) :
    ∀ p ∈ gradleTargetSeconds raw, GRADLE_TARGET_LANGUAGES.contains p.1 = true := by
  unfold gradleTargetSeconds
  suffices h : ∀ (es : List RawLang) (d : QDict),
      (∀ p ∈ d, GRADLE_TARGET_LANGUAGES.contains p.1 = true) →
      ∀ p ∈ es.foldl
        (fun d lang =>
          if GRADLE_TARGET_LANGUAGES.contains (lowerName lang.name) then
            assocSet d (lowerName lang.name) lang.total_seconds
          else d) d, GRADLE_TARGET_LANGUAGES.contains p.1 = true by
    exact h raw [] (by simp)
  intro es
  induction es with
  | nil => intro d hd p hp; exact hd p hp
  | cons e es ih =>
    intro d hd p hp
    rw [List.foldl_cons] at hp
    by_cases hg : GRADLE_TARGET_LANGUAGES.contains (lowerName e.name) = true
    · rw [hg] at hp
      simp only [if_true] at hp
      refine ih _ ?_ p hp
      intro q hq
      rcases mem_assocSet _ _ _ q hq with h1 | h1
      · rw [h1]; exact hg
      · exact hd q h1
    · have : GRADLE_TARGET_LANGUAGES.contains (lowerName e.name) = false := by simpa using hg
      rw [this] at hp
      simp only [Bool.false_eq_true, if_false] at hp
      exact ih d hd p hp

theorem gradleDistribution_keys (raw : List RawLang) :
    ∀ p ∈ gradleDistribution raw, GRADLE_TARGET_LANGUAGES.contains p.1 = true := by
  simp only [gradleDistribution]
  split_ifs with h
  · intro p hp
    rcases List.mem_map.mp hp with ⟨q, hq, hpq⟩
    rw [← hpq]
    exact gradleTargetSeconds_keys raw q hq
  · intro p hp
    simp only [List.mem_singleton] at hp
    rw [hp]
    rfl

theorem qdictSum_gradleDistribution (raw : List RawLang) :
    qdictSum (gradleDistribution raw) = 1 := by
  simp only [gradleDistribution]
  split_ifs with h
  · rw [qdictSum, List.map_map]
    have hco : ((fun p : String × ℚ => p.2) ∘
        fun p : String × ℚ => (p.1, p.2 / qdictSum (gradleTargetSeconds raw))) =
        fun p : String × ℚ => p.2 * (qdictSum (gradleTargetSeconds raw))⁻¹ := by
      funext p
      simp [div_eq_mul_inv]
    rw [hco, List.sum_map_mul_right]
    exact mul_inv_cancel₀ (ne_of_gt h)
  · simp [qdictSum]

/-! ### Lemmas about the Gradle redistribution step -/

theorem dictSum_applyGradle_go (dist : QDict) (g : ℚ) (d : Dict) :
    dictSum (dist.foldl (fun d p => addDefault d p.1 (capitalize p.1) (g * p.2)) d) =
      dictSum d + g * qdictSum dist := by
  induction dist generalizing d with
  | nil => simp [qdictSum]
  | cons p ps ih =>
    rw [List.foldl_cons, ih, dictSum_addDefault]
    simp only [qdictSum, List.map_cons, List.sum_cons]
    ring

theorem dictSum_applyGradle (raw : List RawLang) (d : Dict) (g : ℚ) (hg : 0 ≤ g) :
    dictSum (applyGradle d (gradleDistribution raw) g) = dictSum d + g := by
  unfold applyGradle
  split_ifs with h
  · rw [dictSum_applyGradle_go, qdictSum_gradleDistribution, mul_one]
  · have : g = 0 := le_antisymm (not_lt.mp h) hg
    rw [this, add_zero]

theorem lookupD_applyGradle_go (dist : QDict) (g : ℚ) (k : String)
    (hk : ∀ p ∈ dist, p.1 ≠ k) (d : Dict) :
    lookupD (dist.foldl (fun d p => addDefault d p.1 (capitalize p.1) (g * p.2)) d) k =
      lookupD d k := by
  induction dist generalizing d with
  | nil => rfl
  | cons p ps ih =>
    rw [List.foldl_cons, ih (fun q hq => hk q (List.mem_cons_of_mem _ hq)),
      lookupD_addDefault_ne _ _ _ _ _ (hk p (List.mem_cons_self _ _))]

theorem lookupD_applyGradle (raw : List RawLang) (d : Dict) (g : ℚ) (k : String)
    (hk : GRADLE_TARGET_LANGUAGES.contains k = false) :
    lookupD (applyGradle d (gradleDistribution raw) g) k = lookupD d k := by
  unfold applyGradle
  split_ifs with h
  · refine lookupD_applyGradle_go _ _ _ ?_ d
    intro p hp hpk
    have := gradleDistribution_keys raw p hp
    rw [hpk, hk] at this
    cases this
  · rfl

/-! ### Lemmas about the output stage -/

theorem outSum_process (raw : List RawLang) :
    outSum (process_language_data raw) = dictSum (finalDict raw) := by
  unfold process_language_data outSum
  rw [((List.perm_insertionSort _ (toPercentList (finalDict raw))).map
    (fun e => e.total_seconds)).sum_eq]
  simp only [toPercentList, List.map_map]
  rfl

theorem percentSum_process (raw : List RawLang) :
    percentSum (process_language_data raw) = percentSum (toPercentList (finalDict raw)) := by
  unfold process_language_data percentSum
  rw [((List.perm_insertionSort _ (toPercentList (finalDict raw))).map
    (fun e => e.percent)).sum_eq]

theorem percentSum_toPercentList_pos (d : Dict) (h : 0 < dictSum d) :
    percentSum (toPercentList d) = 100 := by
  simp only [percentSum, toPercentList, List.map_map]
  have hco : ((fun e : ProcessedLang => e.percent) ∘ fun p : String × Bucket =>
      (⟨p.2.name, p.2.total_seconds,
        if 0 < dictSum d then p.2.total_seconds / dictSum d * 100 else 0⟩ : ProcessedLang)) =
      fun p : String × Bucket => p.2.total_seconds * ((dictSum d)⁻¹ * 100) := by
    funext p
    simp only [Function.comp_apply, if_pos h]
    rw [div_eq_mul_inv, mul_assoc]
  rw [hco, List.sum_map_mul_right]
  have : (List.map (fun p : String × Bucket => p.2.total_seconds) d).sum = dictSum d := rfl
  rw [this, ← mul_assoc, mul_inv_cancel₀ (ne_of_gt h), one_mul]

theorem percent_toPercentList_zero (d : Dict) (h : ¬ 0 < dictSum d) :
    ∀ e ∈ toPercentList d, e.percent = 0 := by
  simp only [toPercentList]
  intro e he
  rcases List.mem_map.mp he with ⟨p, _, hpe⟩
  rw [← hpe]
  simp [h]

theorem mem_process_iff (raw : List RawLang) (e : ProcessedLang) :
    e ∈ process_language_data raw ↔ e ∈ toPercentList (finalDict raw) := by
  unfold process_language_data
  exact (List.perm_insertionSort _ _).mem_iff

theorem dictSum_finalizeDict (st : Pass2State)
    (hc : 0 ≤ st.cmake_seconds) (hj : 0 ≤ st.jupyter_seconds)
    (hja : 0 ≤ st.java_related_seconds) (hf : 0 ≤ st.frontend_seconds)
    (hsl : 0 ≤ st.shell_seconds) (hsd : 0 ≤ st.shader_seconds)
    (hfr : lookupD st.dict "frontend" = none) (hsh : lookupD st.dict "shell" = none)
    (hsr : lookupD st.dict "shader" = none) :
    dictSum (finalizeDict st) = dictSum st.dict + st.cmake_seconds + st.jupyter_seconds +
      st.java_related_seconds + st.frontend_seconds + st.shell_seconds + st.shader_seconds := by
  unfold finalizeDict
  have f3 : lookupD (foldAcc (foldAcc (foldAcc st.dict "c++" "C++" st.cmake_seconds)
      "python" "Python" st.jupyter_seconds) "java" "Java" st.java_related_seconds)
      "frontend" = none := by
    rw [lookupD_foldAcc_ne _ _ _ _ _ (by decide), lookupD_foldAcc_ne _ _ _ _ _ (by decide),
      lookupD_foldAcc_ne _ _ _ _ _ (by decide)]
    exact hfr
  have s4 : lookupD (storeAcc (foldAcc (foldAcc (foldAcc st.dict "c++" "C++" st.cmake_seconds)
      "python" "Python" st.jupyter_seconds) "java" "Java" st.java_related_seconds)
      "frontend" "Frontend Langs" st.frontend_seconds) "shell" = none := by
    rw [lookupD_storeAcc_ne _ _ _ _ _ (by decide), lookupD_foldAcc_ne _ _ _ _ _ (by decide),
      lookupD_foldAcc_ne _ _ _ _ _ (by decide), lookupD_foldAcc_ne _ _ _ _ _ (by decide)]
    exact hsh
  have s5 : lookupD (storeAcc (storeAcc (foldAcc (foldAcc (foldAcc st.dict
      "c++" "C++" st.cmake_seconds) "python" "Python" st.jupyter_seconds)
      "java" "Java" st.java_related_seconds)
      "frontend" "Frontend Langs" st.frontend_seconds)
      "shell" "Shell Langs" st.shell_seconds) "shader" = none := by
    rw [lookupD_storeAcc_ne _ _ _ _ _ (by decide), lookupD_storeAcc_ne _ _ _ _ _ (by decide),
      lookupD_foldAcc_ne _ _ _ _ _ (by decide), lookupD_foldAcc_ne _ _ _ _ _ (by decide),
      lookupD_foldAcc_ne _ _ _ _ _ (by decide)]
    exact hsr
  rw [dictSum_storeAcc _ _ _ _ hsd s5, dictSum_storeAcc _ _ _ _ hsl s4,
    dictSum_storeAcc _ _ _ _ hf f3, dictSum_foldAcc _ _ _ _ hja,
    dictSum_foldAcc _ _ _ _ hj, dictSum_foldAcc _ _ _ _ hc]

theorem lookupD_pass2_none (raw : List RawLang) (k : String)
    (hk1 : k ≠ "objective-c") (hk2 : k ≠ "c")
    (h : raw.filter (fun e => lowerName e.name == k && decide (defaultLabel k)) = []) :
    lookupD (pass2 raw).dict k = none := by
  unfold pass2
  rw [lookupD_pass2_go k hk1 hk2, h]
  rfl

/-- Grouping at a default-only key: all raw entries whose lowercased label is
`k` land in one bucket keyed `k`, displaying the first-seen casing and summing
their durations. -/
theorem pass2_default_grouping (raw : List RawLang) (k : String) (hk : defaultKey k) :
    ∀ (e : RawLang) (es : List RawLang),
      raw.filter (fun x => lowerName x.name == k) = e :: es →
      lookupD (pass2 raw).dict k = some ⟨e.name, sumSecs (e :: es)⟩ := by
  intro e es hf
  obtain ⟨hdl, hkc⟩ := hk
  have hobjc : k ≠ "objective-c" := by
    intro h
    subst h
    exact absurd hdl.2.2.2.2.2.2.2.2.1 (by decide)
  unfold pass2
  rw [lookupD_pass2_go k hobjc hkc]
  have hfe : raw.filter (fun x => lowerName x.name == k && decide (defaultLabel k)) =
      raw.filter (fun x => lowerName x.name == k) := by
    apply List.filter_congr
    intro x hx
    simp [decide_eq_true hdl]
  rw [hfe, hf]
  simp [initState, lookupD, combineBucket]

/-! ### The claims -/

/-- The C1 counterexample input: a raw label that lowercases to the literal
key `frontend` plus one genuine frontend entry. -/
def c1input : List RawLang := [⟨"frontend", 100⟩, ⟨"css", 50⟩]

/-- The C3 input of the Gradle proportional-split scenario. -/
def c3input : List RawLang := [⟨"java", 300⟩, ⟨"kotlin", 100⟩, ⟨"gradle", 200⟩]

/-- A C4 witness input with positive frontend, shell and shader accumulators. -/
def c4input : List RawLang := [⟨"css", 1⟩, ⟨"bash", 2⟩, ⟨"glsl", 3⟩]

/-- The C5 input of the aggregate-grouping scenario. -/
def c5input : List RawLang := [⟨"javascript", 50⟩, ⟨"css", 50⟩, ⟨"python", 100⟩]

/-- The C7 input of the case-insensitive dedup scenario. -/
def c7input : List RawLang := [⟨"Rust", 10⟩, ⟨"rust", 5⟩]

/-- The C7 counterexample input: a C/C++ joint label followed by a default-case
label whose lowercase is the same canonical key `c`. -/
def c7cex : List RawLang := [⟨"c/c++", 1⟩, ⟨"c", 5⟩]

/-- A C10 witness input with two occurrences of the same target language. -/
def c10input : List RawLang := [⟨"java", 7⟩, ⟨"Java", 3⟩]

section ConcreteEvaluations
attribute [local semireducible] Rat.add Rat.mul Rat.inv Rat.sub Rat.ofScientific

/-- C1 (counterexample): on `[{"frontend", 100}, {"css", 50}]` — an input with
no discard-set entries and non-negative durations — the output total is 50,
not the input total 150: the synthetic Frontend bucket is stored by plain
assignment over the key `frontend` and destroys the 100 seconds accumulated
there, so conservation fails as claimed. -/
theorem C1_conservation_counterexample :
    c1input.filter (fun e => MEANINGLESS_LANGUAGES.contains (lowerName e.name)) = [] ∧
    c1input.filter (fun e => decide (e.total_seconds < 0)) = [] ∧
    sumSecs c1input = 150 ∧
    outSum (process_language_data c1input) = 50 ∧
    outSum (process_language_data c1input) ≠ sumSecs c1input := by
  refine ⟨by decide, by decide, by decide, by decide, by decide⟩

end ConcreteEvaluations

/-- C1 (amended): conservation holds for every raw input with non-negative
durations, no entry in the discard set, and no entry whose lowercased label is
the literal string `frontend` or `shader` (the two synthetic map keys that a
default-branch label can otherwise occupy and that finalization overwrites):
the sum of output durations equals the sum of input durations. -/
theorem C1_conservation (raw : List RawLang)
    (h0 : ∀ e ∈ raw, 0 ≤ e.total_seconds)
    (h1 : ∀ e ∈ raw, MEANINGLESS_LANGUAGES.contains (lowerName e.name) = false)
    (h2 : ∀ e ∈ raw, lowerName e.name ≠ "frontend")
    (h3 : ∀ e ∈ raw, lowerName e.name ≠ "shader") :
    outSum (process_language_data raw) = sumSecs raw := by
  rw [outSum_process]
  unfold finalDict
  unfold pass2
  obtain ⟨nc, ng, nf, nj, nja, nsl, nsd⟩ :=
    pass2_accums_nonneg raw initState h0 (by norm_num [initState])
  have habs_f : lookupD (pass2 raw).dict "frontend" = none := by
    refine lookupD_pass2_none raw "frontend" (by decide) (by decide) ?_
    refine List.filter_eq_nil_iff.mpr ?_
    intro a ha
    simp [h2 a ha]
  have habs_sd : lookupD (pass2 raw).dict "shader" = none := by
    refine lookupD_pass2_none raw "shader" (by decide) (by decide) ?_
    refine List.filter_eq_nil_iff.mpr ?_
    intro a ha
    simp [h3 a ha]
  have habs_sl : lookupD (pass2 raw).dict "shell" = none := by
    refine lookupD_pass2_none raw "shell" (by decide) (by decide) ?_
    refine List.filter_eq_nil_iff.mpr ?_
    intro a ha
    have hnd : ¬ defaultLabel "shell" := by decide
    simp [hnd]
  unfold pass2 at habs_f habs_sd habs_sl
  rw [dictSum_applyGradle raw _ _ ng,
    dictSum_finalizeDict _ nc nj nja nf nsl nsd habs_f habs_sl habs_sd]
  have ht := tally_pass2_go raw initState h1
  have ht0 : tally initState = 0 := by simp [tally, initState, dictSum]
  rw [ht0, zero_add] at ht
  unfold tally at ht
  linarith [ht]

section ClaimWitnesses
attribute [local semireducible] Rat.add Rat.mul Rat.inv Rat.sub Rat.ofScientific

/-- Witness for C1 (amended) at the concrete input `[{"Rust", 10}]`. -/
theorem C1_conservation_witness :
    outSum (process_language_data [RawLang.mk "Rust" 10]) = sumSecs [RawLang.mk "Rust" 10] :=
  C1_conservation [RawLang.mk "Rust" 10] (by decide) (by decide) (by decide) (by decide)

end ClaimWitnesses

/-- C2: whenever the retained total is positive the output percents sum to
exactly 100 (hence within 1e-6), and whenever the retained total is 0 every
output percent is 0. -/
theorem C2_percent_sum (raw : List RawLang) :
    (0 < retainedTotal raw → percentSum (process_language_data raw) = 100) ∧
    (retainedTotal raw = 0 → ∀ e ∈ process_language_data raw, e.percent = 0) := by
  constructor
  · intro h
    rw [percentSum_process]
    exact percentSum_toPercentList_pos _ h
  · intro h e he
    refine percent_toPercentList_zero _ ?_ e ((mem_process_iff raw e).mp he)
    unfold retainedTotal at h
    rw [h]
    exact lt_irrefl 0

section MoreConcrete
attribute [local semireducible] Rat.add Rat.mul Rat.inv Rat.sub Rat.ofScientific

/-- Witness for C2 at the concrete input `[{"Rust", 10}]`. -/
theorem C2_percent_sum_witness :
    percentSum (process_language_data [RawLang.mk "Rust" 10]) = 100 :=
  (C2_percent_sum [RawLang.mk "Rust" 10]).1 (by decide)

/-- C3: on `[{"java", 300}, {"kotlin", 100}, {"gradle", 200}]` the Pass-1
shares are 3/4 (= 0.75) for java and 1/4 (= 0.25) for kotlin, the retained
total is 600, and the output is the java bucket with 450 seconds at 75 percent
followed by the kotlin bucket with 150 seconds at 25 percent. -/
theorem C3_gradle_proportional_split :
    gradleDistribution c3input = [("java", 3/4), ("kotlin", 1/4)] ∧
    retainedTotal c3input = 600 ∧
    process_language_data c3input = [⟨"java", 450, 75⟩, ⟨"kotlin", 150, 25⟩] := by
  refine ⟨by decide, by decide, by decide⟩

end MoreConcrete

/-- C4: whenever the frontend (resp. shell, shader) accumulator is positive,
the final dict holds under the key `frontend` (resp. `shell`, `shader`) a
freshly created bucket named "Frontend Langs" (resp. "Shell Langs",
"Shader Langs") whose seconds equal exactly the accumulator — never a merge
with a pre-existing bucket at that key. -/
theorem C4_synthetic_never_merged (raw : List RawLang) :
    (0 < (pass2 raw).frontend_seconds →
      lookupD (finalDict raw) "frontend" =
        some ⟨"Frontend Langs", (pass2 raw).frontend_seconds⟩) ∧
    (0 < (pass2 raw).shell_seconds →
      lookupD (finalDict raw) "shell" = some ⟨"Shell Langs", (pass2 raw).shell_seconds⟩) ∧
    (0 < (pass2 raw).shader_seconds →
      lookupD (finalDict raw) "shader" = some ⟨"Shader Langs", (pass2 raw).shader_seconds⟩) := by
  refine ⟨fun h => ?_, fun h => ?_, fun h => ?_⟩
  · unfold finalDict
    rw [lookupD_applyGradle raw _ _ _ (by decide)]
    unfold finalizeDict
    rw [lookupD_storeAcc_ne _ _ _ _ _ (by decide), lookupD_storeAcc_ne _ _ _ _ _ (by decide)]
    exact lookupD_storeAcc_self _ _ _ _ h
  · unfold finalDict
    rw [lookupD_applyGradle raw _ _ _ (by decide)]
    unfold finalizeDict
    rw [lookupD_storeAcc_ne _ _ _ _ _ (by decide)]
    exact lookupD_storeAcc_self _ _ _ _ h
  · unfold finalDict
    rw [lookupD_applyGradle raw _ _ _ (by decide)]
    unfold finalizeDict
    exact lookupD_storeAcc_self _ _ _ _ h

section EvenMoreConcrete
attribute [local semireducible] Rat.add Rat.mul Rat.inv Rat.sub Rat.ofScientific

/-- Witness for C4 at a concrete input with all three accumulators positive. -/
theorem C4_synthetic_never_merged_witness :
    lookupD (finalDict c4input) "frontend" =
      some ⟨"Frontend Langs", (pass2 c4input).frontend_seconds⟩ ∧
    lookupD (finalDict c4input) "shell" =
      some ⟨"Shell Langs", (pass2 c4input).shell_seconds⟩ ∧
    lookupD (finalDict c4input) "shader" =
      some ⟨"Shader Langs", (pass2 c4input).shader_seconds⟩ :=
  ⟨(C4_synthetic_never_merged c4input).1 (by decide),
   (C4_synthetic_never_merged c4input).2.1 (by decide),
   (C4_synthetic_never_merged c4input).2.2 (by decide)⟩

/-- C5 (counterexample): on `[{"javascript", 50}, {"css", 50}, {"python", 100}]`
the Python bucket keeps the first-seen casing "python", so the claimed entry
`{"Python", 100, 50.0}` does not occur in the output. -/
theorem C5_aggregate_grouping_counterexample :
    process_language_data c5input = [⟨"python", 100, 50⟩, ⟨"Frontend Langs", 100, 50⟩] ∧
    (⟨"Python", 100, 50⟩ : ProcessedLang) ∉ process_language_data c5input := by
  refine ⟨by decide, by decide⟩

/-- C5 (amended): on `[{"javascript", 50}, {"css", 50}, {"python", 100}]` the
output has exactly two entries, the python bucket (display name "python",
first-seen casing) with 100 seconds at 50 percent, then the "Frontend Langs"
bucket with 100 seconds at 50 percent. -/
theorem C5_aggregate_grouping :
    process_language_data c5input = [⟨"python", 100, 50⟩, ⟨"Frontend Langs", 100, 50⟩] := by
  decide

/-- C6: on `[{"gradle", 100}]` the fallback distribution sends the whole
orchestrator time to a newly created Java bucket: the output is exactly
`{"Java", 100, 100.0}`. -/
theorem C6_gradle_fallback :
    process_language_data [RawLang.mk "gradle" 100] = [⟨"Java", 100, 100⟩] := by
  decide

/-- C7 (counterexample to the general clause): on `[{"c/c++", 1}, {"c", 5}]`
the label c is default-case (it matches no rule set) and is the only entry of
its case-insensitive class, yet the bucket stored at its key `c` is ⟨"C", 6⟩ —
the C/C++ canonicalization rule writes the same key with the fixed display
name "C" and its own seconds — and not ⟨"c", 5⟩, the first-seen casing and sum
of the default-case entries, as the claim stated in general. -/
theorem C7_case_insensitive_dedup_counterexample :
    defaultLabel (lowerName "c") ∧
    c7cex.filter (fun x => lowerName x.name == "c") = [⟨"c", 5⟩] ∧
    lookupD (pass2 c7cex).dict "c" = some ⟨"C", 6⟩ ∧
    lookupD (pass2 c7cex).dict "c" ≠ some ⟨"c", 5⟩ := by
  refine ⟨by decide, by decide, by decide, by decide⟩

/-- C7 (amended): on `[{"Rust", 10}, {"rust", 5}]` the output is exactly
`{"Rust", 15, 100.0}`; and in general, at any key matching no rule set other
than the canonical C key (which the C/C++ canonicalization rule also writes),
case-insensitively equal default-branch entries sum their durations in one
bucket displaying the first-seen casing. -/
theorem C7_case_insensitive_dedup :
    process_language_data c7input = [⟨"Rust", 15, 100⟩] ∧
    ∀ (raw : List RawLang) (k : String), defaultKey k →
      ∀ (e : RawLang) (es : List RawLang),
        raw.filter (fun x => lowerName x.name == k) = e :: es →
        lookupD (pass2 raw).dict k = some ⟨e.name, sumSecs (e :: es)⟩ := by
  constructor
  · decide
  · intro raw k hk
    exact pass2_default_grouping raw k hk

/-- Witness for the general clause of C7 at the key `rust` of the same input. -/
theorem C7_case_insensitive_dedup_witness :
    lookupD (pass2 c7input).dict "rust" =
      some ⟨"Rust", sumSecs [RawLang.mk "Rust" 10, RawLang.mk "rust" 5]⟩ :=
  (C7_case_insensitive_dedup).2 c7input "rust" (by decide) ⟨"Rust", 10⟩ [⟨"rust", 5⟩]
    (by decide)

end EvenMoreConcrete

/-- C8: the output list is sorted in descending order of `total_seconds`. -/
theorem C8_output_sorted (raw : List RawLang) :
    List.Pairwise (fun a b : ProcessedLang => b.total_seconds ≤ a.total_seconds)
      (process_language_data raw) := by
  unfold process_language_data
  haveI : IsTotal ProcessedLang (fun a b => b.total_seconds ≤ a.total_seconds) :=
    ⟨fun a b => le_total b.total_seconds a.total_seconds⟩
  haveI : IsTrans ProcessedLang (fun a b => b.total_seconds ≤ a.total_seconds) :=
    ⟨fun a b c h1 h2 => le_trans h2 h1⟩
  exact List.sorted_insertionSort _ _

/-- C9: the empty raw input yields the empty output, and the retained total of
0 takes the guarded percent branch rather than dividing by zero. -/
theorem C9_empty_input :
    process_language_data [] = [] ∧ retainedTotal [] = 0 := by
  exact ⟨rfl, rfl⟩

/-- C10: for a Gradle target language, Pass 1 records by dict assignment, so
its recorded duration is the `total_seconds` of the last occurrence, while the
pass-2 bucket for that language sums the durations of all its occurrences. -/
theorem C10_pass1_last_assignment (raw : List RawLang) (l : String)
    (hl : l ∈ GRADLE_TARGET_LANGUAGES) :
    lookupQ (gradleTargetSeconds raw) l =
      ((raw.filter (fun e => lowerName e.name == l)).getLast?).map
        (fun e => e.total_seconds) ∧
    ∀ (e : RawLang) (es : List RawLang),
      raw.filter (fun x => lowerName x.name == l) = e :: es →
      lookupD (pass2 raw).dict l = some ⟨e.name, sumSecs (e :: es)⟩ := by
  constructor
  · have hl' : GRADLE_TARGET_LANGUAGES.contains l = true := List.elem_eq_true_of_mem hl
    unfold gradleTargetSeconds
    rw [lookupQ_gradleTargetSeconds_go l hl']
    cases hgl : (raw.filter (fun e => lowerName e.name == l)).getLast? with
    | none => simp [lookupQ]
    | some x => simp
  · have hdk : defaultKey l := by
      simp only [GRADLE_TARGET_LANGUAGES, List.mem_cons, List.not_mem_nil, or_false,
        List.mem_singleton] at hl
      rcases hl with rfl | rfl | rfl
      · decide
      · decide
      · decide
    exact pass2_default_grouping raw l hdk

section FinalConcrete
attribute [local semireducible] Rat.add Rat.mul Rat.inv Rat.sub Rat.ofScientific

/-- Witness for C10 at `[{"java", 7}, {"Java", 3}]`: Pass 1 keeps only the
last occurrence (3 seconds) while the pass-2 bucket holds the sum (10). -/
theorem C10_pass1_last_assignment_witness :
    lookupQ (gradleTargetSeconds c10input) "java" = some 3 ∧
    lookupD (pass2 c10input).dict "java" = some ⟨"java", sumSecs c10input⟩ := by
  constructor
  · rw [(C10_pass1_last_assignment c10input "java" (by decide)).1]
    decide
  · exact (C10_pass1_last_assignment c10input "java" (by decide)).2
      ⟨"java", 7⟩ [⟨"Java", 3⟩] (by decide)

end FinalConcrete
